import Mathlib

/-!
Verification development for the freqlab real-time audio preview core
(src-tauri/src/audio). The Rust source is shallowly embedded:

* `f32` values are embedded as real numbers with exact arithmetic; decimal
  literals of the source (`0.1`, `0.8`, `0.5`, ...) are embedded as the exact
  rational constants they denote.
* `usize`/`u32`/`u16` indices and counts are embedded as `ℕ`; the one place
  where wrapping matters (`pink_index.wrapping_add(1)`) is embedded with an
  explicit `% 2 ^ 64`.
* `rand::thread_rng().gen_range(-1.0..1.0)` is embedded as an ambient stream
  `rng : ℕ → ℝ` of draws together with a cursor in the generator state; the
  theorems assume every draw has absolute value at most 1, which contains the
  half-open range `[-1, 1)` produced by the source.
* fallible operations return `Option`/pairs, mirroring the source's `Option`
  and boolean results.
-/

/-! ## buffer.rs: StereoSample and the SPSC ring buffer -/

/-- Stereo audio sample (`StereoSample` in buffer.rs): two `f32` channels. -/
structure StereoSample where
  left : ℝ
  right : ℝ

def StereoSample.new (left right : ℝ) : StereoSample := ⟨left, right⟩

def StereoSample.mono (value : ℝ) : StereoSample := ⟨value, value⟩

/-- `StereoSample::silence()` — the `Default` value `(0.0, 0.0)`. -/
def StereoSample.silence : StereoSample := ⟨0, 0⟩

/-- Modelled from the spec: the state of the SPSC queue of the external
`ringbuf` crate (`HeapRb<StereoSample>`), whose implementation is a
dependency not present under src.  The spec describes it as a fixed-capacity
single-producer/single-consumer FIFO queue; we model its observable content
as the list of queued samples, oldest first, together with the capacity. -/
structure RingBufferState where
  capacity : ℕ
  data : List StereoSample

/-- Modelled from the spec: `AudioProducer::push` / `ringbuf` `try_push` —
non-blocking, returns `true` and appends when there is vacant space,
returns `false` and leaves the queue unchanged when full. -/
def AudioProducer.push (b : RingBufferState) (sample : StereoSample) :
    Bool × RingBufferState :=
  if b.data.length < b.capacity then
    (true, { b with data := b.data ++ [sample] })
  else
    (false, b)

/-- Modelled from the spec: `AudioProducer::push_slice` — pushes the longest
fitting front segment of the slice and returns the number pushed. -/
def AudioProducer.push_slice : RingBufferState → List StereoSample → ℕ × RingBufferState
  | b, [] => (0, b)
  | b, sample :: rest =>
    let r := AudioProducer.push b sample
    if r.1 then
      let r2 := AudioProducer.push_slice r.2 rest
      (r2.1 + 1, r2.2)
    else
      (0, r.2)

/-- `AudioProducer::available` — vacant space (`vacant_len`). -/
def AudioProducer.available (b : RingBufferState) : ℕ := b.capacity - b.data.length

/-- `AudioProducer::is_full`. -/
def AudioProducer.is_full (b : RingBufferState) : Bool :=
  decide (b.capacity ≤ b.data.length)

/-- Modelled from the spec: `AudioConsumer::pop` / `ringbuf` `try_pop` —
returns `None` on an empty queue, otherwise the oldest queued sample. -/
def AudioConsumer.pop (b : RingBufferState) : Option StereoSample × RingBufferState :=
  match b.data with
  | [] => (none, b)
  | x :: xs => (some x, { b with data := xs })

/-- Modelled from the spec: `AudioConsumer::pop_slice` — pops up to `count`
oldest samples without blocking. -/
def AudioConsumer.pop_slice (b : RingBufferState) (count : ℕ) :
    List StereoSample × RingBufferState :=
  (b.data.take count, { b with data := b.data.drop count })

/-- `AudioConsumer::available` — occupied length. -/
def AudioConsumer.available (b : RingBufferState) : ℕ := b.data.length

/-- `AudioConsumer::is_empty`. -/
def AudioConsumer.is_empty (b : RingBufferState) : Bool := b.data.isEmpty

/-- One operation of an interleaved producer/consumer history. -/
inductive BufferOp
  | push : StereoSample → BufferOp
  | pop : BufferOp

/-- A trace: buffer state, samples successfully pushed so far (in order),
samples observed by the consumer so far (in order). -/
structure TraceResult where
  buf : RingBufferState
  pushed : List StereoSample
  popped : List StereoSample

/-- Run an arbitrary interleaving of push/pop operations, recording the
successfully pushed samples and the popped samples. -/
def run_buffer_ops : List BufferOp → TraceResult → TraceResult
  | [], r => r
  | BufferOp.push s :: rest, r =>
    let pr := AudioProducer.push r.buf s
    run_buffer_ops rest ⟨pr.2, r.pushed ++ if pr.1 then [s] else [], r.popped⟩
  | BufferOp.pop :: rest, r =>
    let pr := AudioConsumer.pop r.buf
    run_buffer_ops rest ⟨pr.2, r.pushed, r.popped ++ pr.1.toList⟩

/-! ## crash_guard.rs -/

/-- `CrashGuardResult` from crash_guard.rs. -/
inductive CrashGuardResult (T : Type)
  | Ok : T → CrashGuardResult T
  | Crashed : ℤ → CrashGuardResult T

/-- `CrashGuardResult::is_crashed`. -/
def CrashGuardResult.is_crashed {T : Type} : CrashGuardResult T → Bool
  | CrashGuardResult.Crashed _ => true
  | CrashGuardResult.Ok _ => false

/-- The observable behaviour of the guarded closure `f`: it either returns a
value normally, or raises a hardware fault (SIGABRT/SIGSEGV/SIGBUS on unix,
an SEH exception code on windows) identified by an integer code. -/
inductive FnBehavior (T : Type)
  | returns : T → FnBehavior T
  | faults : ℤ → FnBehavior T

/-- The process-wide mutable state touched by the unix implementation:
the installed-handlers flag, the armed jump-target slot, and the crash
record written by the signal handler. -/
structure GuardState where
  handlers_installed : Bool
  jump_active : Bool
  crash_caught : Bool
  crash_signal : ℤ

/-- `unix::install_handlers` — idempotent installation of the signal
handlers (observable effect on the modelled state: the flag is set). -/
def install_handlers (st : GuardState) : GuardState :=
  { st with handlers_installed := true }

/-- `with_crash_guard` (unix::with_crash_guard control flow, which the
windows implementation mirrors through `microseh::try_seh`):
install handlers, reset the crash flag, `sigsetjmp` returns 0, arm the
guard, run `f`.  If `f` returns normally the guard is disarmed and the
value is returned as `Ok`; if `f` faults, the signal handler sees the armed
guard, records the signal and `siglongjmp`s back, and the guard returns
`Crashed(signal)`. -/
def with_crash_guard {T : Type} (st : GuardState) (f : FnBehavior T) :
    CrashGuardResult T × GuardState :=
  let st1 := install_handlers st
  let st2 := { st1 with crash_caught := false }
  let st3 := { st2 with jump_active := true }
  match f with
  | FnBehavior.returns v =>
    (CrashGuardResult.Ok v, { st3 with jump_active := false })
  | FnBehavior.faults sig =>
    (CrashGuardResult.Crashed sig,
      { st3 with jump_active := false, crash_caught := true, crash_signal := sig })

/-! ## device.rs -/

/-- `AudioConfig` from device.rs. -/
structure AudioConfig where
  sample_rate : ℕ
  channels : ℕ
  buffer_size : ℕ
deriving DecidableEq

/-- One entry of `device.supported_output_configs()` (cpal
`SupportedStreamConfigRange`): a sample-rate range and a channel count. -/
structure SupportedConfigRange where
  min_sample_rate : ℕ
  max_sample_rate : ℕ
  channels : ℕ
deriving DecidableEq

/-- cpal `BufferSize`. -/
inductive CpalBufferSize
  | fixed : ℕ → CpalBufferSize
  | default : CpalBufferSize
deriving DecidableEq

/-- cpal `StreamConfig`. -/
structure StreamConfig where
  channels : ℕ
  sample_rate : ℕ
  buffer_size : CpalBufferSize
deriving DecidableEq

/-- The result of `device.default_output_config()` (the fields the fallback
path of `get_supported_config` reads). -/
structure DeviceDefaultConfig where
  channels : ℕ
  sample_rate : ℕ
deriving DecidableEq

/-- The match condition of the loop in `get_supported_config`:
`preferred.sample_rate >= min && preferred.sample_rate <= max
&& config.channels() >= preferred.channels`. -/
def config_matches (preferred : AudioConfig) (c : SupportedConfigRange) : Bool :=
  decide (c.min_sample_rate ≤ preferred.sample_rate) &&
  decide (preferred.sample_rate ≤ c.max_sample_rate) &&
  decide (preferred.channels ≤ c.channels)

/-- `get_supported_config` from device.rs: scan the supported configurations
in order and return a stream config built from the preferred settings at the
first match; if none matches, fall back to the device default capped at
stereo with the default buffer size. -/
def get_supported_config :
    List SupportedConfigRange → AudioConfig → DeviceDefaultConfig → StreamConfig
  | [], _, dflt =>
    ⟨min dflt.channels 2, dflt.sample_rate, CpalBufferSize.default⟩
  | c :: rest, preferred, dflt =>
    if config_matches preferred c then
      ⟨preferred.channels, preferred.sample_rate, CpalBufferSize.fixed preferred.buffer_size⟩
    else
      get_supported_config rest preferred dflt

/-! ## samples.rs: AudioSample and SamplePlayer -/

/-- `AudioSample` from samples.rs: the decoded stereo buffer.  The `info`
metadata (name, path, duration, ...) is not read by any playback operation
and is omitted. -/
structure AudioSample where
  data : List StereoSample

/-- `AudioSample::get_sample`: the stored sample at `position`, and silence
for every out-of-bounds position. -/
def AudioSample.get_sample (s : AudioSample) (position : ℕ) : StereoSample :=
  if h : position < s.data.length then s.data.get ⟨position, h⟩
  else StereoSample.silence

/-- `SamplePlayer` from samples.rs. -/
structure SamplePlayer where
  sample : Option AudioSample
  position : ℕ
  is_playing : Bool
  is_looping : Bool
  speed_ratio : ℝ
  fractional_position : ℝ

/-- `SamplePlayer::new`. -/
noncomputable def SamplePlayer.new : SamplePlayer :=
  { sample := none, position := 0, is_playing := false, is_looping := true,
    speed_ratio := 1, fractional_position := 0 }

/-- `SamplePlayer::set_speed_ratio`: `ratio.max(0.1).min(4.0)`. -/
noncomputable def SamplePlayer.set_speed_ratio (p : SamplePlayer) (ratio : ℝ) : SamplePlayer :=
  { p with speed_ratio := min (max ratio 0.1) 4 }

/-- The position-advance loop at the end of `SamplePlayer::next_sample`
(`while fractional_position >= 1.0 { fractional_position -= 1.0;
position += 1 }`), in closed form: the loop runs `⌊frac⌋.toNat` times.
`advance_position_loop_eq` below certifies the loop's defining equation. -/
noncomputable def advance_position (position : ℕ) (frac : ℝ) : ℕ × ℝ :=
  (position + (⌊frac⌋).toNat, frac - (⌊frac⌋).toNat)

/-- The linear-interpolation read and position advance of
`SamplePlayer::next_sample` (lines 372–389): read the bracketing samples
through `get_sample`, interpolate, then advance the fractional position by
the speed ratio. -/
noncomputable def SamplePlayer.interp_and_advance (p : SamplePlayer) (s : AudioSample) :
    StereoSample × SamplePlayer :=
  let current := s.get_sample p.position
  let next := s.get_sample (p.position + 1)
  let frac := p.fractional_position
  let interpolated := StereoSample.new
    (current.left * (1 - frac) + next.left * frac)
    (current.right * (1 - frac) + next.right * frac)
  let adv := advance_position p.position (p.fractional_position + p.speed_ratio)
  (interpolated, { p with position := adv.1, fractional_position := adv.2 })

/-- `SamplePlayer::next_sample`: silence when not playing or no sample is
loaded; at or past the end of the data, either loop back to the start or
stop and emit silence; otherwise interpolate and advance. -/
noncomputable def SamplePlayer.next_sample (p : SamplePlayer) : StereoSample × SamplePlayer :=
  if p.is_playing = false then (StereoSample.silence, p)
  else
    match p.sample with
    | none => (StereoSample.silence, p)
    | some s =>
      if s.data.length ≤ p.position then
        if p.is_looping then
          SamplePlayer.interp_and_advance
            { p with position := 0, fractional_position := 0 } s
        else
          (StereoSample.silence, { p with is_playing := false })
      else
        SamplePlayer.interp_and_advance p s

/-! ## signals.rs: SignalGenerator -/

/-- `SignalType` from signals.rs. -/
inductive SignalType
  | Sine | Square | WhiteNoise | PinkNoise | Impulse | Sweep
deriving DecidableEq

/-- `GatePattern` from signals.rs. -/
inductive GatePattern
  | Continuous | Pulse | Quarter | Eighth | Sixteenth
deriving DecidableEq

/-- `SignalConfig` from signals.rs. -/
structure SignalConfig where
  signal_type : SignalType
  frequency : ℝ
  amplitude : ℝ
  sweep_start : ℝ
  sweep_end : ℝ
  sweep_duration : ℝ
  gate_pattern : GatePattern
  gate_rate : ℝ
  gate_duty : ℝ

/-- `SignalConfig::default()`. -/
noncomputable def SignalConfig.default : SignalConfig :=
  { signal_type := SignalType.Sine, frequency := 440, amplitude := 0.5,
    sweep_start := 20, sweep_end := 20000, sweep_duration := 5,
    gate_pattern := GatePattern.Continuous, gate_rate := 2, gate_duty := 0.5 }

/-- `SignalGenerator` from signals.rs.  `rng_pos` is the cursor into the
ambient stream of `thread_rng` draws (see the header comment). -/
structure SignalGenerator where
  config : SignalConfig
  sample_rate : ℝ
  phase : ℝ
  sweep_phase : ℝ
  gate_phase : ℝ
  pink_rows : Fin 16 → ℝ
  pink_running_sum : ℝ
  pink_index : ℕ
  rng_pos : ℕ

/-- `SignalGenerator::new`. -/
noncomputable def SignalGenerator.new (sample_rate : ℕ) : SignalGenerator :=
  { config := SignalConfig.default, sample_rate := sample_rate, phase := 0,
    sweep_phase := 0, gate_phase := 0, pink_rows := fun _ => 0,
    pink_running_sum := 0, pink_index := 0, rng_pos := 0 }

/-- `SignalGenerator::set_config`: store the config and reset all phase
accumulators. -/
noncomputable def SignalGenerator.set_config (g : SignalGenerator) (config : SignalConfig) :
    SignalGenerator :=
  { g with config := config, phase := 0, sweep_phase := 0, gate_phase := 0 }

/-- `SignalGenerator::set_gate_pattern`. -/
noncomputable def SignalGenerator.set_gate_pattern (g : SignalGenerator) (pattern : GatePattern) :
    SignalGenerator :=
  { g with config := { g.config with gate_pattern := pattern }, gate_phase := 0 }

/-- `f32::clamp(lo, hi)` (for `lo ≤ hi` and non-NaN input):
`if x < lo { lo } else if x > hi { hi } else { x }`. -/
noncomputable def rustClamp (x lo hi : ℝ) : ℝ :=
  if x < lo then lo else if hi < x then hi else x

/-- `SignalGenerator::set_gate_rate`: `rate.max(0.1)`. -/
noncomputable def SignalGenerator.set_gate_rate (g : SignalGenerator) (rate : ℝ) :
    SignalGenerator :=
  { g with config := { g.config with gate_rate := max rate 0.1 } }

/-- `SignalGenerator::set_gate_duty`: `duty.clamp(0.1, 1.0)`. -/
noncomputable def SignalGenerator.set_gate_duty (g : SignalGenerator) (duty : ℝ) :
    SignalGenerator :=
  { g with config := { g.config with gate_duty := rustClamp duty 0.1 1 } }

/-- `SignalGenerator::set_frequency`. -/
noncomputable def SignalGenerator.set_frequency (g : SignalGenerator) (frequency : ℝ) :
    SignalGenerator :=
  { g with config := { g.config with frequency := frequency } }

/-- `SignalGenerator::set_amplitude`: `amplitude.clamp(0.0, 1.0)`. -/
noncomputable def SignalGenerator.set_amplitude (g : SignalGenerator) (amplitude : ℝ) :
    SignalGenerator :=
  { g with config := { g.config with amplitude := rustClamp amplitude 0 1 } }

/-- `SignalGenerator::calculate_gate`, as a function of the config, the
sample rate and the current gate phase; returns the gate multiplier and the
new gate phase. -/
noncomputable def calculate_gate (config : SignalConfig) (sample_rate gate_phase : ℝ) :
    ℝ × ℝ :=
  match config.gate_pattern with
  | GatePattern.Continuous => (1, gate_phase)
  | GatePattern.Pulse =>
    let cycle_samples := sample_rate / config.gate_rate
    let position_in_cycle := gate_phase / cycle_samples
    let phase1 := gate_phase + 1
    let phase2 := if cycle_samples ≤ phase1 then 0 else phase1
    (if position_in_cycle < config.gate_duty then 1 else 0, phase2)
  | GatePattern.Quarter | GatePattern.Eighth | GatePattern.Sixteenth =>
    let bpm := max config.gate_rate 20
    let beats_per_second := bpm / 60
    let subdivisions : ℝ :=
      match config.gate_pattern with
      | GatePattern.Quarter => 1
      | GatePattern.Eighth => 2
      | GatePattern.Sixteenth => 4
      | _ => 1
    let notes_per_second := beats_per_second * subdivisions
    let cycle_samples := sample_rate / notes_per_second
    let position_in_cycle := gate_phase / cycle_samples
    let phase1 := gate_phase + 1
    let phase2 := if cycle_samples ≤ phase1 then 0 else phase1
    (if position_in_cycle < config.gate_duty then 1 else 0, phase2)

/-- `SignalGenerator::generate_sine`. -/
noncomputable def SignalGenerator.generate_sine (g : SignalGenerator) : ℝ × SignalGenerator :=
  let sample := Real.sin (g.phase * 2 * Real.pi)
  let phase1 := g.phase + g.config.frequency / g.sample_rate
  let phase2 := if 1 ≤ phase1 then phase1 - 1 else phase1
  (sample, { g with phase := phase2 })

/-- `SignalGenerator::generate_square` (output softened by `* 0.8`). -/
noncomputable def SignalGenerator.generate_square (g : SignalGenerator) : ℝ × SignalGenerator :=
  let sample : ℝ := if g.phase < 0.5 then 1 else -1
  let phase1 := g.phase + g.config.frequency / g.sample_rate
  let phase2 := if 1 ≤ phase1 then phase1 - 1 else phase1
  (sample * 0.8, { g with phase := phase2 })

/-- `SignalGenerator::generate_white_noise`: one draw from the rng stream. -/
noncomputable def SignalGenerator.generate_white_noise (rng : ℕ → ℝ) (g : SignalGenerator) :
    ℝ × SignalGenerator :=
  (rng g.rng_pos, { g with rng_pos := g.rng_pos + 1 })

/-- `usize::trailing_zeros` for 64-bit values (`trailing_zeros(0) = 64`),
computed with 64 units of fuel. -/
def tzAux : ℕ → ℕ → ℕ
  | 0, _ => 0
  | fuel + 1, n => if n % 2 = 1 then 0 else tzAux fuel (n / 2) + 1

def usizeTrailingZeros (n : ℕ) : ℕ := tzAux 64 n

/-- `SignalGenerator::generate_pink_noise` (Voss-McCartney): update the row
selected by the trailing zeros of the counter (capped at 15), maintain the
running sum incrementally, advance the counter with wrapping, add one fresh
white draw and divide by 5. -/
noncomputable def SignalGenerator.generate_pink_noise (rng : ℕ → ℝ) (g : SignalGenerator) :
    ℝ × SignalGenerator :=
  let num_zeros : Fin 16 :=
    ⟨min (usizeTrailingZeros g.pink_index) 15,
      Nat.lt_succ_of_le (Nat.min_le_right _ _)⟩
  let new_row := rng g.rng_pos
  let updated_sum := g.pink_running_sum - g.pink_rows num_zeros + new_row
  let rows := Function.update g.pink_rows num_zeros new_row
  let idx := (g.pink_index + 1) % 2 ^ 64
  let white := rng (g.rng_pos + 1)
  ((updated_sum + white) / 5,
    { g with pink_rows := rows, pink_running_sum := updated_sum,
             pink_index := idx, rng_pos := g.rng_pos + 2 })

/-- `SignalGenerator::generate_impulse`. -/
noncomputable def SignalGenerator.generate_impulse (g : SignalGenerator) : ℝ × SignalGenerator :=
  let impulse_rate := max g.config.frequency 0.1
  let samples_between_impulses := g.sample_rate / impulse_rate
  let phase1 := g.phase + 1
  if samples_between_impulses ≤ phase1 then (1, { g with phase := 0 })
  else (0, { g with phase := phase1 })

/-- `SignalGenerator::generate_sweep`: logarithmic frequency interpolation
driving a sine phase accumulator, with the sweep phase looping after the
configured duration. -/
noncomputable def SignalGenerator.generate_sweep (g : SignalGenerator) : ℝ × SignalGenerator :=
  let t := g.sweep_phase / g.sample_rate
  let sweep_progress := min (t / g.config.sweep_duration) 1
  let log_start := Real.log g.config.sweep_start
  let log_end := Real.log g.config.sweep_end
  let current_freq := Real.exp (log_start + (log_end - log_start) * sweep_progress)
  let sample := Real.sin (g.phase * 2 * Real.pi)
  let phase1 := g.phase + current_freq / g.sample_rate
  let phase2 := if 1 ≤ phase1 then phase1 - 1 else phase1
  let sweep1 := g.sweep_phase + 1
  let sweep2 := if 1 ≤ sweep_progress then 0 else sweep1
  (sample, { g with phase := phase2, sweep_phase := sweep2 })

/-- `SignalGenerator::next_sample`: generate the base signal for the
configured type, then apply the gate and amplitude multiplicatively and
duplicate to both channels (`StereoSample::mono`). -/
noncomputable def SignalGenerator.next_sample (rng : ℕ → ℝ) (g : SignalGenerator) :
    StereoSample × SignalGenerator :=
  let res :=
    match g.config.signal_type with
    | SignalType.Sine => SignalGenerator.generate_sine g
    | SignalType.Square => SignalGenerator.generate_square g
    | SignalType.WhiteNoise => SignalGenerator.generate_white_noise rng g
    | SignalType.PinkNoise => SignalGenerator.generate_pink_noise rng g
    | SignalType.Impulse => SignalGenerator.generate_impulse g
    | SignalType.Sweep => SignalGenerator.generate_sweep g
  let gate := calculate_gate res.2.config res.2.sample_rate res.2.gate_phase
  (StereoSample.mono (res.1 * res.2.config.amplitude * gate.1),
    { res.2 with gate_phase := gate.2 })

/-- The pink-noise well-formedness invariant: every row holds a past rng
draw (or the initial 0), so has absolute value at most 1, and the running
sum is the sum of the rows.  It holds for `SignalGenerator.new` and is
preserved by `next_sample` whenever the rng draws are bounded by 1. -/
def SignalGenerator.PinkWF (g : SignalGenerator) : Prop :=
  (∀ i, |g.pink_rows i| ≤ 1) ∧ g.pink_running_sum = ∑ i, g.pink_rows i

/-- The gate-value sequence of `calculate_gate` iterated from gate phase 0
(`new` and `set_config` both reset the gate phase to 0): the phase reached
before the `n`-th call. -/
noncomputable def gate_phase_at (config : SignalConfig) (sample_rate : ℝ) : ℕ → ℝ
  | 0 => 0
  | n + 1 => (calculate_gate config sample_rate (gate_phase_at config sample_rate n)).2

/-- The gate value produced by the `n`-th call to `calculate_gate`,
starting from gate phase 0. -/
noncomputable def gate_at (config : SignalConfig) (sample_rate : ℝ) (n : ℕ) : ℝ :=
  (calculate_gate config sample_rate (gate_phase_at config sample_rate n)).1

/-! ## file_watcher.rs: debounce state machine -/

/-- `DEBOUNCE_MS` from file_watcher.rs. -/
def DEBOUNCE_MS : ℕ := 500

/-- One externally observable event of the watcher, with a timestamp in
milliseconds: `evt t` is a filesystem modify/create event delivered to the
watcher closure at time `t` (which stores `Instant::now()` into
`last_event_time`); `tick t` is a wakeup of the debounce-thread loop at
time `t` via `recv_timeout`'s 100 ms timeout. -/
inductive WatcherAction
  | evt : ℕ → WatcherAction
  | tick : ℕ → WatcherAction
deriving DecidableEq

/-- The debounce state: the shared `last_event_time` slot, plus the list of
callback invocations so far, each recorded as (time fired, last event
time that triggered it). -/
structure WatcherState where
  last_event_time : Option ℕ
  fires : List (ℕ × ℕ)
deriving DecidableEq

/-- One step of the watcher: an event overwrites `last_event_time`; a timer
tick checks `instant.elapsed() > DEBOUNCE_MS` and, if so, clears the slot
and invokes the reload callback (`PluginWatcher::debounce_thread`). -/
def watcher_step (st : WatcherState) (a : WatcherAction) : WatcherState :=
  match a with
  | WatcherAction.evt t => { st with last_event_time := some t }
  | WatcherAction.tick now =>
    match st.last_event_time with
    | some te =>
      if te + DEBOUNCE_MS < now then
        { last_event_time := none, fires := st.fires ++ [(now, te)] }
      else st
    | none => st

/-- Run a sequence of watcher actions. -/
def watcher_run (acts : List WatcherAction) (st : WatcherState) : WatcherState :=
  acts.foldl watcher_step st

/-- A burst is quiet for the debouncer when, tracking the last event time
`cur`, every timer tick inside it comes no later than `DEBOUNCE_MS` after
the most recent event — the timing condition of a burst of events that all
fall within the debounce window of each other. -/
def burst_quiet : Option ℕ → List WatcherAction → Bool
  | _, [] => true
  | _, WatcherAction.evt t :: rest => burst_quiet (some t) rest
  | cur, WatcherAction.tick now :: rest =>
    (match cur with
     | some te => decide (now ≤ te + DEBOUNCE_MS)
     | none => true) && burst_quiet cur rest

/-- The last event time after processing a list of actions, starting from a
tracked last event time. -/
def last_event_after : Option ℕ → List WatcherAction → Option ℕ
  | cur, [] => cur
  | _, WatcherAction.evt t :: rest => last_event_after (some t) rest
  | cur, WatcherAction.tick _ :: rest => last_event_after cur rest

/-- Whether an action is a timer tick. -/
def WatcherAction.is_tick : WatcherAction → Bool
  | WatcherAction.tick _ => true
  | WatcherAction.evt _ => false

/-! ## Concrete instances used by the closed evaluation theorems -/

/-- An rng stream that always draws 0 (a valid draw of `gen_range(-1.0..1.0)`). -/
noncomputable def rngZero : ℕ → ℝ := fun _ => 0

/-- An rng stream that always draws 0.9 (a valid draw of `gen_range(-1.0..1.0)`). -/
noncomputable def rngNine : ℕ → ℝ := fun _ => 9 / 10

/-- A pink-noise configuration with full amplitude and no gating. -/
noncomputable def pinkConfig : SignalConfig :=
  { signal_type := SignalType.PinkNoise, frequency := 440, amplitude := 1,
    sweep_start := 20, sweep_end := 20000, sweep_duration := 5,
    gate_pattern := GatePattern.Continuous, gate_rate := 2, gate_duty := 0.5 }

/-- A generator state in which every pink-noise row holds the draw 0.9 and
the running sum is consistent — the shape the rows reach after a run of
high draws has touched every row. -/
noncomputable def pinkLoudGen : SignalGenerator :=
  { config := pinkConfig, sample_rate := 44100, phase := 0, sweep_phase := 0,
    gate_phase := 0, pink_rows := fun _ => 9 / 10, pink_running_sum := 72 / 5,
    pink_index := 0, rng_pos := 0 }

/-- A pulse-gate configuration with rate 2 Hz and duty 0.5. -/
noncomputable def pulseConfig : SignalConfig :=
  { signal_type := SignalType.Sine, frequency := 440, amplitude := 1,
    sweep_start := 20, sweep_end := 20000, sweep_duration := 5,
    gate_pattern := GatePattern.Pulse, gate_rate := 2, gate_duty := 0.5 }

/-- A one-frame decoded sample. -/
noncomputable def oneFrameSample : AudioSample := ⟨[StereoSample.new 3 4]⟩

/-- A playing, non-looping player whose position is past the end of its
one-frame sample. -/
noncomputable def endedPlayer : SamplePlayer :=
  { sample := some oneFrameSample, position := 5, is_playing := true,
    is_looping := false, speed_ratio := 1, fractional_position := 0 }

/-- `endedPlayer` after `next_sample` stops it. -/
noncomputable def stoppedPlayer : SamplePlayer :=
  { endedPlayer with is_playing := false }

/-! ## Theorems -/

/-- C3: `with_crash_guard(f)` on a closure that returns normally with value
`v` returns the `Ok` variant carrying exactly `v`, and never the `Crashed`
variant, for every initial guard state. -/
theorem C3_crash_guard_normal_return {T : Type} (st : GuardState) (v : T) :
    (with_crash_guard st (FnBehavior.returns v)).1 = CrashGuardResult.Ok v ∧
    (with_crash_guard st (FnBehavior.returns v)).1.is_crashed = false :=
  ⟨rfl, rfl⟩

/-- C4: `get_supported_config` returns the preferred-based stream config
exactly when some supported range matches (the scan takes the first match),
and otherwise falls back to the device default capped at 2 channels with
the default buffer size. -/
theorem C4_get_supported_config_spec (configs : List SupportedConfigRange)
    (preferred : AudioConfig) (dflt : DeviceDefaultConfig) :
    (∀ c, configs.find? (config_matches preferred) = some c →
      get_supported_config configs preferred dflt =
        ⟨preferred.channels, preferred.sample_rate,
          CpalBufferSize.fixed preferred.buffer_size⟩) ∧
    (configs.find? (config_matches preferred) = none →
      get_supported_config configs preferred dflt =
        ⟨min dflt.channels 2, dflt.sample_rate, CpalBufferSize.default⟩) := by
  induction configs with
  | nil =>
    refine ⟨fun c h => by simp at h, fun _ => rfl⟩
  | cons a rest ih =>
    by_cases hm : config_matches preferred a
    · refine ⟨fun c h => by simp [get_supported_config, hm], fun h => ?_⟩
      rw [List.find?_cons_of_pos _ hm] at h
      exact absurd h (by simp)
    · refine ⟨fun c h => ?_, fun h => ?_⟩
      · rw [List.find?_cons_of_neg _ (by simpa using hm)] at h
        simpa [get_supported_config, hm] using ih.1 c h
      · rw [List.find?_cons_of_neg _ (by simpa using hm)] at h
        simpa [get_supported_config, hm] using ih.2 h

/-- C4 witness: a matching supported range yields the preferred-based
config; a non-matching list yields the capped default. -/
theorem C4_get_supported_config_spec_witness :
    get_supported_config [⟨40000, 50000, 2⟩] ⟨44100, 2, 512⟩ ⟨6, 48000⟩ =
      ⟨2, 44100, CpalBufferSize.fixed 512⟩ ∧
    get_supported_config [⟨8000, 16000, 1⟩] ⟨44100, 2, 512⟩ ⟨6, 48000⟩ =
      ⟨min 6 2, 48000, CpalBufferSize.default⟩ :=
  ⟨(C4_get_supported_config_spec [⟨40000, 50000, 2⟩] ⟨44100, 2, 512⟩ ⟨6, 48000⟩).1
      ⟨40000, 50000, 2⟩ (by decide),
   (C4_get_supported_config_spec [⟨8000, 16000, 1⟩] ⟨44100, 2, 512⟩ ⟨6, 48000⟩).2
      (by decide)⟩

/-- C10: the setters clamp: `set_gate_duty` stores the duty clamped into
`[0.1, 1.0]`, hence never 0; `set_gate_rate` stores at least 0.1;
`set_amplitude` stores a value in `[0.0, 1.0]`. -/
theorem C10_setters_clamp (g : SignalGenerator) (d r a : ℝ) :
    (g.set_gate_duty d).config.gate_duty ∈ Set.Icc (0.1 : ℝ) 1 ∧
    (g.set_gate_duty d).config.gate_duty ≠ 0 ∧
    (0.1 : ℝ) ≤ (g.set_gate_rate r).config.gate_rate ∧
    (g.set_amplitude a).config.amplitude ∈ Set.Icc (0 : ℝ) 1 := by
  refine ⟨?_, ?_, ?_, ?_⟩
  · simp only [SignalGenerator.set_gate_duty, rustClamp, Set.mem_Icc]
    split_ifs with h1 h2
    · norm_num
    · norm_num
    · constructor <;> linarith
  · simp only [SignalGenerator.set_gate_duty, rustClamp]
    split_ifs with h1 h2
    · norm_num
    · norm_num
    · have hd : (0.1 : ℝ) ≤ d := not_lt.mp h1
      intro h
      rw [h] at hd
      norm_num at hd
  · simp only [SignalGenerator.set_gate_rate]
    exact le_max_right _ _
  · simp only [SignalGenerator.set_amplitude, rustClamp, Set.mem_Icc]
    split_ifs with h1 h2
    · norm_num
    · norm_num
    · constructor <;> linarith

/-- The trace invariant of the ring buffer: the samples popped so far
followed by the current queue content are exactly the samples successfully
pushed so far. -/
theorem run_buffer_ops_invariant (ops : List BufferOp) : ∀ r : TraceResult,
    r.popped ++ r.buf.data = r.pushed →
    (run_buffer_ops ops r).popped ++ (run_buffer_ops ops r).buf.data =
      (run_buffer_ops ops r).pushed := by
  induction ops with
  | nil => exact fun r h => h
  | cons op rest ih =>
    intro r h
    cases op with
    | push s =>
      simp only [run_buffer_ops]
      apply ih
      simp only [AudioProducer.push]
      by_cases hc : r.buf.data.length < r.buf.capacity
      · simp only [hc, if_true]
        simp [← h, List.append_assoc]
      · simp only [hc, if_false]
        simpa using h
    | pop =>
      simp only [run_buffer_ops]
      apply ih
      cases hd : r.buf.data with
      | nil =>
        simp only [AudioConsumer.pop, hd]
        simpa [hd] using h
      | cons x xs =>
        simp only [AudioConsumer.pop, hd]
        simp only [Option.toList_some]
        rw [← h, hd]
        simp

/-- C2: for every capacity and every interleaving of pushes and pops from
an initially empty buffer, the popped samples are a prefix of the
successfully pushed samples (FIFO, never more popped than pushed), and
popping an empty buffer returns `none` and leaves the buffer unchanged. -/
theorem C2_ring_buffer_fifo (ops : List BufferOp) (capacity : ℕ) :
    (∃ rest, (run_buffer_ops ops ⟨⟨capacity, []⟩, [], []⟩).popped ++ rest =
      (run_buffer_ops ops ⟨⟨capacity, []⟩, [], []⟩).pushed) ∧
    (run_buffer_ops ops ⟨⟨capacity, []⟩, [], []⟩).popped.length ≤
      (run_buffer_ops ops ⟨⟨capacity, []⟩, [], []⟩).pushed.length ∧
    ∀ b : RingBufferState, b.data = [] → AudioConsumer.pop b = (none, b) := by
  have h := run_buffer_ops_invariant ops ⟨⟨capacity, []⟩, [], []⟩ rfl
  refine ⟨⟨_, h⟩, ?_, ?_⟩
  · rw [← h]
    simp
  · intro b hb
    simp [AudioConsumer.pop, hb]

/-- C2 witness: a concrete push/pop interleaving, and a pop from a concrete
empty buffer. -/
theorem C2_ring_buffer_fifo_witness :
    (run_buffer_ops [BufferOp.push (StereoSample.new 1 2), BufferOp.pop]
        ⟨⟨8, []⟩, [], []⟩).popped.length ≤
      (run_buffer_ops [BufferOp.push (StereoSample.new 1 2), BufferOp.pop]
        ⟨⟨8, []⟩, [], []⟩).pushed.length ∧
    AudioConsumer.pop ⟨8, []⟩ = (none, ⟨8, []⟩) :=
  ⟨(C2_ring_buffer_fifo [BufferOp.push (StereoSample.new 1 2), BufferOp.pop] 8).2.1,
   (C2_ring_buffer_fifo [] 8).2.2 ⟨8, []⟩ rfl⟩

/-- `push_slice` pushes at most the vacant space and appends exactly the
front segment it reports. -/
theorem push_slice_take_spec (xs : List StereoSample) : ∀ b : RingBufferState,
    (AudioProducer.push_slice b xs).1 ≤ AudioProducer.available b ∧
    (AudioProducer.push_slice b xs).2.data =
      b.data ++ xs.take (AudioProducer.push_slice b xs).1 := by
  induction xs with
  | nil =>
    intro b
    simp [AudioProducer.push_slice]
  | cons x rest ih =>
    intro b
    by_cases hc : b.data.length < b.capacity
    · have hrec := ih ⟨b.capacity, b.data ++ [x]⟩
      simp only [AudioProducer.push_slice, AudioProducer.push, hc, if_true] at hrec ⊢
      refine ⟨?_, ?_⟩
      · have h1 := hrec.1
        simp only [AudioProducer.available, List.length_append, List.length_singleton] at h1 ⊢
        omega
      · have h2 := hrec.2
        simp only [h2, List.take_succ_cons, List.append_assoc, List.singleton_append]
    · simp only [AudioProducer.push_slice, AudioProducer.push, hc, if_false]
      simp [AudioProducer.available]

/-- C6: pushing into a full buffer returns `false` and leaves the contents
unchanged (no stored sample is overwritten), and `push_slice` returns the
number of samples actually pushed, which is at most the vacant space. -/
theorem C6_producer_nonblocking (b : RingBufferState) (s : StereoSample)
    (xs : List StereoSample) :
    (AudioProducer.is_full b = true → AudioProducer.push b s = (false, b)) ∧
    (AudioProducer.push_slice b xs).1 ≤ AudioProducer.available b ∧
    (AudioProducer.push_slice b xs).2.data =
      b.data ++ xs.take (AudioProducer.push_slice b xs).1 := by
  refine ⟨?_, push_slice_take_spec xs b⟩
  intro hf
  have hle : b.capacity ≤ b.data.length := by simpa [AudioProducer.is_full] using hf
  simp [AudioProducer.push, Nat.not_lt.mpr hle]

/-- C6 witness: a concrete full one-slot buffer rejects a push unchanged,
and `push_slice` into it pushes at most the vacant space. -/
theorem C6_producer_nonblocking_witness :
    AudioProducer.push ⟨1, [StereoSample.new 5 6]⟩ (StereoSample.new 7 8) =
      (false, ⟨1, [StereoSample.new 5 6]⟩) ∧
    (AudioProducer.push_slice ⟨1, [StereoSample.new 5 6]⟩ [StereoSample.new 7 8]).1 ≤
      AudioProducer.available ⟨1, [StereoSample.new 5 6]⟩ :=
  ⟨(C6_producer_nonblocking ⟨1, [StereoSample.new 5 6]⟩ (StereoSample.new 7 8) []).1 rfl,
   (C6_producer_nonblocking ⟨1, [StereoSample.new 5 6]⟩ (StereoSample.new 7 8)
      [StereoSample.new 7 8]).2.1⟩

/-- C9: `AudioSample::get_sample` returns the stored sample for every
in-bounds position and silence for every out-of-bounds position; in
particular the linear interpolation in `SamplePlayer::next_sample`, which
reads `position + 1`, goes through `get_sample` on both reads, so it is
total and never reads out of bounds. -/
theorem C9_get_sample_total (s : AudioSample) (pos : ℕ) (p : SamplePlayer) :
    (∀ h : pos < s.data.length, s.get_sample pos = s.data.get ⟨pos, h⟩) ∧
    (s.data.length ≤ pos → s.get_sample pos = StereoSample.silence) ∧
    (p.is_playing = true → p.sample = some s → p.position < s.data.length →
      (p.next_sample).1 = StereoSample.new
        ((s.get_sample p.position).left * (1 - p.fractional_position) +
          (s.get_sample (p.position + 1)).left * p.fractional_position)
        ((s.get_sample p.position).right * (1 - p.fractional_position) +
          (s.get_sample (p.position + 1)).right * p.fractional_position)) := by
  refine ⟨?_, ?_, ?_⟩
  · intro h
    simp only [AudioSample.get_sample]
    exact dif_pos h
  · intro h
    simp only [AudioSample.get_sample]
    exact dif_neg (Nat.not_lt.mpr h)
  · intro hp hs hpos
    simp only [SamplePlayer.next_sample, hp, hs, Nat.not_le.mpr hpos,
      SamplePlayer.interp_and_advance, StereoSample.new]
    simp

/-- C9 witness: on a concrete one-frame sample, position 0 reads the stored
frame and position 7 reads silence. -/
theorem C9_get_sample_total_witness :
    oneFrameSample.get_sample 0 = StereoSample.new 3 4 ∧
    oneFrameSample.get_sample 7 = StereoSample.silence := by
  constructor
  · have h := (C9_get_sample_total oneFrameSample 0 endedPlayer).1
      (by simp [oneFrameSample])
    simpa [oneFrameSample] using h
  · exact (C9_get_sample_total oneFrameSample 7 endedPlayer).2.1
      (by simp [oneFrameSample])

/-- C5: for a playing player whose integer position has reached or passed
the end of the decoded data: with looping enabled, `next_sample` behaves
exactly as from the start (both positions reset to zero); with looping
disabled, that call returns silence and stops playback, and every player
that is not playing returns silence and stays unchanged on every subsequent
call. -/
theorem C5_sample_player_end (p : SamplePlayer) (s : AudioSample)
    (hp : p.is_playing = true) (hs : p.sample = some s)
    (hpos : s.data.length ≤ p.position) :
    (p.is_looping = true →
      p.next_sample =
        SamplePlayer.next_sample { p with position := 0, fractional_position := 0 }) ∧
    (p.is_looping = false →
      p.next_sample = (StereoSample.silence, { p with is_playing := false }) ∧
      ∀ q : SamplePlayer, q.is_playing = false →
        q.next_sample = (StereoSample.silence, q)) := by
  constructor
  · intro hl
    rcases Nat.eq_zero_or_pos s.data.length with h0 | h0
    · simp only [SamplePlayer.next_sample, hp, hs, hpos, hl, h0]
      simp
    · simp only [SamplePlayer.next_sample, hp, hs, hpos, hl]
      simp [Nat.not_le.mpr h0]
  · intro hl
    refine ⟨?_, ?_⟩
    · simp [SamplePlayer.next_sample, hp, hs, hpos, hl]
    · intro q hq
      simp [SamplePlayer.next_sample, hq]

/-- C5 witness: a concrete playing, non-looping player past the end of its
sample stops with silence, and the stopped player keeps returning silence
unchanged. -/
theorem C5_sample_player_end_witness :
    SamplePlayer.next_sample endedPlayer = (StereoSample.silence, stoppedPlayer) ∧
    SamplePlayer.next_sample stoppedPlayer = (StereoSample.silence, stoppedPlayer) := by
  have h := (C5_sample_player_end endedPlayer oneFrameSample rfl rfl
    (by simp [oneFrameSample, endedPlayer])).2 rfl
  exact ⟨h.1, h.2 stoppedPlayer rfl⟩

/-- During a quiet burst (every timer tick within the debounce window of
the most recent event), the watcher fires no callback and just tracks the
last event time. -/
theorem watcher_run_quiet (acts : List WatcherAction) :
    ∀ (cur : Option ℕ) (fs : List (ℕ × ℕ)), burst_quiet cur acts = true →
    watcher_run acts ⟨cur, fs⟩ = ⟨last_event_after cur acts, fs⟩ := by
  induction acts with
  | nil => intro cur fs _; rfl
  | cons a rest ih =>
    intro cur fs hq
    cases a with
    | evt t =>
      simp only [burst_quiet] at hq
      simp only [watcher_run, List.foldl_cons, watcher_step, last_event_after]
      exact ih (some t) fs hq
    | tick now =>
      simp only [burst_quiet, Bool.and_eq_true] at hq
      cases cur with
      | none =>
        simp only [watcher_run, List.foldl_cons, watcher_step, last_event_after]
        exact ih none fs hq.2
      | some te =>
        have hle : now ≤ te + DEBOUNCE_MS := by simpa using hq.1
        simp only [watcher_run, List.foldl_cons, watcher_step, last_event_after]
        rw [if_neg (by omega)]
        exact ih (some te) fs hq.2

/-- After the callback has fired and cleared the timestamp, further timer
ticks do nothing. -/
theorem watcher_run_ticks_only : ∀ (acts : List WatcherAction) (fs : List (ℕ × ℕ)),
    (∀ a ∈ acts, a.is_tick = true) → watcher_run acts ⟨none, fs⟩ = ⟨none, fs⟩ := by
  intro acts
  induction acts with
  | nil => intro fs _; rfl
  | cons a rest ih =>
    intro fs h
    cases a with
    | evt t =>
      simpa [WatcherAction.is_tick] using h _ (List.mem_cons_self _ _)
    | tick now =>
      simp only [watcher_run, List.foldl_cons, watcher_step]
      exact ih fs fun a ha => h a (List.mem_cons_of_mem _ ha)

/-- C8: for a burst of filesystem events whose timer ticks all fall within
the 500 ms debounce window of the most recent event, followed by a timer
tick strictly more than the debounce window after the last event and then
only further ticks, the reload callback fires exactly once — at that first
late tick, recorded with the last event time it debounced — and firing
clears the stored last-event timestamp, so the same burst never fires
again. -/
theorem C8_debounce_exactly_once (burst later : List WatcherAction) (tL tf : ℕ)
    (hquiet : burst_quiet none burst = true)
    (hlast : last_event_after none burst = some tL)
    (hlate : tL + DEBOUNCE_MS < tf)
    (hticks : ∀ a ∈ later, a.is_tick = true) :
    watcher_run (burst ++ WatcherAction.tick tf :: later) ⟨none, []⟩ =
      ⟨none, [(tf, tL)]⟩ := by
  have h1 : watcher_run burst ⟨none, []⟩ = ⟨some tL, []⟩ := by
    rw [watcher_run_quiet burst none [] hquiet, hlast]
  have h2 : watcher_run (burst ++ WatcherAction.tick tf :: later) ⟨none, []⟩ =
      watcher_run (WatcherAction.tick tf :: later) (watcher_run burst ⟨none, []⟩) := by
    simp [watcher_run, List.foldl_append]
  rw [h2, h1]
  simp only [watcher_run, List.foldl_cons, watcher_step]
  rw [if_pos hlate]
  simpa using watcher_run_ticks_only later [(tf, tL)] hticks

/-- C8 witness: a concrete burst of three events with interleaved ticks,
one late tick at 951 ms, and a further tick — the callback fires exactly
once, at 951 ms, debouncing the last event at 450 ms. -/
theorem C8_debounce_exactly_once_witness :
    watcher_run
      ([WatcherAction.evt 0, WatcherAction.tick 100, WatcherAction.evt 300,
        WatcherAction.tick 400, WatcherAction.evt 450, WatcherAction.tick 600] ++
        WatcherAction.tick 951 :: [WatcherAction.tick 1051]) ⟨none, []⟩ =
      ⟨none, [(951, 450)]⟩ :=
  C8_debounce_exactly_once
    [WatcherAction.evt 0, WatcherAction.tick 100, WatcherAction.evt 300,
      WatcherAction.tick 400, WatcherAction.evt 450, WatcherAction.tick 600]
    [WatcherAction.tick 1051] 450 951 (by decide) (by decide) (by decide) (by decide)

/-- `calculate_gate` only ever produces the multipliers 0 and 1. -/
theorem calculate_gate_zero_or_one (config : SignalConfig) (sample_rate gate_phase : ℝ) :
    (calculate_gate config sample_rate gate_phase).1 = 0 ∨
    (calculate_gate config sample_rate gate_phase).1 = 1 := by
  rcases hgp : config.gate_pattern <;> simp only [calculate_gate, hgp]
  case Continuous => simp
  case Pulse => split_ifs <;> simp
  case Quarter => split_ifs <;> simp
  case Eighth => split_ifs <;> simp
  case Sixteenth => split_ifs <;> simp

/-- Multiplying a bounded base signal by an amplitude of magnitude at most
1 and a gate of 0 or 1 keeps the bound. -/
theorem mono_output_bound {base amp gate B : ℝ} (hb : |base| ≤ B)
    (ha : |amp| ≤ 1) (hg : gate = 0 ∨ gate = 1) :
    |base * amp * gate| ≤ B := by
  have hB : 0 ≤ B := le_trans (abs_nonneg _) hb
  rcases hg with h | h <;> subst h
  · simpa using hB
  · rw [mul_one, abs_mul]
    calc |base| * |amp| ≤ B * 1 := mul_le_mul hb ha (abs_nonneg _) hB
    _ = B := mul_one B

/-- The base value of one pink-noise step is bounded by 17/5: the sum over
the 15 untouched rows is at most 15 in magnitude, and the fresh row value
and the added white draw contribute at most 1 each, all divided by 5. -/
theorem pink_value_bound (sum v w : ℝ) (rows : Fin 16 → ℝ) (k : Fin 16)
    (hrows : ∀ i, |rows i| ≤ 1) (hsum : sum = ∑ i, rows i)
    (hv : |v| ≤ 1) (hw : |w| ≤ 1) :
    |(sum - rows k + v + w) / 5| ≤ 17 / 5 := by
  have herase : sum - rows k = ∑ i ∈ Finset.univ.erase k, rows i := by
    rw [hsum, ← Finset.add_sum_erase _ _ (Finset.mem_univ k)]
    ring
  have hcard : (Finset.univ.erase k).card = 15 := by
    rw [Finset.card_erase_of_mem (Finset.mem_univ k)]
    simp
  have hbound : |∑ i ∈ Finset.univ.erase k, rows i| ≤ 15 := by
    calc |∑ i ∈ Finset.univ.erase k, rows i|
        ≤ ∑ i ∈ Finset.univ.erase k, |rows i| := Finset.abs_sum_le_sum_abs _ _
    _ ≤ (Finset.univ.erase k).card • (1 : ℝ) :=
        Finset.sum_le_card_nsmul _ _ 1 fun i _ => hrows i
    _ = 15 := by rw [hcard]; simp
  rw [abs_div, abs_of_pos (by norm_num : (0:ℝ) < 5)]
  rw [div_le_div_iff_of_pos_right (by norm_num : (0:ℝ) < 5)]
  calc |sum - rows k + v + w| ≤ |sum - rows k + v| + |w| := abs_add _ _
    _ ≤ |sum - rows k| + |v| + |w| := by
        have := abs_add (sum - rows k) v
        linarith
    _ ≤ 15 + 1 + 1 := by
        rw [herase] at *
        linarith [hbound]
    _ = 17 := by norm_num

/-- The pink-noise branch output is bounded by 17/5 from any well-formed
state under bounded rng draws. -/
theorem generate_pink_noise_bound (rng : ℕ → ℝ) (g : SignalGenerator)
    (hrng : ∀ n, |rng n| ≤ 1) (hwf : g.PinkWF) :
    |(SignalGenerator.generate_pink_noise rng g).1| ≤ 17 / 5 := by
  obtain ⟨hrows, hsum⟩ := hwf
  simp only [SignalGenerator.generate_pink_noise]
  exact pink_value_bound _ _ _ _ _ hrows hsum (hrng _) (hrng _)

/-- The sine branch base value is a sine, so bounded by 1. -/
theorem generate_sine_fst_bound (g : SignalGenerator) :
    |(SignalGenerator.generate_sine g).1| ≤ 1 := by
  simp only [SignalGenerator.generate_sine]
  exact abs_le.mpr ⟨Real.neg_one_le_sin _, Real.sin_le_one _⟩

/-- The square branch base value is `±1 * 0.8`, so bounded by 1. -/
theorem generate_square_fst_bound (g : SignalGenerator) :
    |(SignalGenerator.generate_square g).1| ≤ 1 := by
  simp only [SignalGenerator.generate_square]
  split_ifs
  · rw [one_mul, abs_of_nonneg (by norm_num : (0:ℝ) ≤ 0.8)]
    norm_num
  · rw [neg_one_mul, abs_neg, abs_of_nonneg (by norm_num : (0:ℝ) ≤ 0.8)]
    norm_num

/-- The white-noise branch base value is one bounded rng draw. -/
theorem generate_white_noise_fst_bound (rng : ℕ → ℝ) (g : SignalGenerator)
    (hrng : ∀ n, |rng n| ≤ 1) :
    |(SignalGenerator.generate_white_noise rng g).1| ≤ 1 :=
  hrng _

/-- The sweep branch base value is a sine, so bounded by 1. -/
theorem generate_sweep_fst_bound (g : SignalGenerator) :
    |(SignalGenerator.generate_sweep g).1| ≤ 1 := by
  simp only [SignalGenerator.generate_sweep]
  exact abs_le.mpr ⟨Real.neg_one_le_sin _, Real.sin_le_one _⟩

/-- C1 (amended): for every config with amplitude of magnitude at most 1,
bounded rng draws, and every generator state whose pink-noise rows are
well-formed, each `next_sample` output for Sine, Square, WhiteNoise and
Sweep has both channels in `[-1, 1]`; for PinkNoise both channels lie in
`[-17/5, 17/5]` (the `[-1, 1]` bound of the original claim fails there,
see `C1_pink_noise_counterexample`). -/
theorem C1_generated_sample_range (rng : ℕ → ℝ) (g : SignalGenerator)
    (hrng : ∀ n, |rng n| ≤ 1) (hwf : g.PinkWF) (hamp : |g.config.amplitude| ≤ 1) :
    ((g.config.signal_type = SignalType.Sine ∨ g.config.signal_type = SignalType.Square ∨
      g.config.signal_type = SignalType.WhiteNoise ∨
      g.config.signal_type = SignalType.Sweep) →
      |(SignalGenerator.next_sample rng g).1.left| ≤ 1 ∧
      |(SignalGenerator.next_sample rng g).1.right| ≤ 1) ∧
    (g.config.signal_type = SignalType.PinkNoise →
      |(SignalGenerator.next_sample rng g).1.left| ≤ 17 / 5 ∧
      |(SignalGenerator.next_sample rng g).1.right| ≤ 17 / 5) := by
  constructor
  · rintro (ht | ht | ht | ht)
    · simp only [SignalGenerator.next_sample, ht, StereoSample.mono]
      rw [show (SignalGenerator.generate_sine g).2.config = g.config from rfl]
      exact ⟨mono_output_bound (generate_sine_fst_bound g) hamp
               (calculate_gate_zero_or_one _ _ _),
             mono_output_bound (generate_sine_fst_bound g) hamp
               (calculate_gate_zero_or_one _ _ _)⟩
    · simp only [SignalGenerator.next_sample, ht, StereoSample.mono]
      rw [show (SignalGenerator.generate_square g).2.config = g.config from rfl]
      exact ⟨mono_output_bound (generate_square_fst_bound g) hamp
               (calculate_gate_zero_or_one _ _ _),
             mono_output_bound (generate_square_fst_bound g) hamp
               (calculate_gate_zero_or_one _ _ _)⟩
    · simp only [SignalGenerator.next_sample, ht, StereoSample.mono]
      rw [show (SignalGenerator.generate_white_noise rng g).2.config = g.config from rfl]
      exact ⟨mono_output_bound (generate_white_noise_fst_bound rng g hrng) hamp
               (calculate_gate_zero_or_one _ _ _),
             mono_output_bound (generate_white_noise_fst_bound rng g hrng) hamp
               (calculate_gate_zero_or_one _ _ _)⟩
    · simp only [SignalGenerator.next_sample, ht, StereoSample.mono]
      rw [show (SignalGenerator.generate_sweep g).2.config = g.config from rfl]
      exact ⟨mono_output_bound (generate_sweep_fst_bound g) hamp
               (calculate_gate_zero_or_one _ _ _),
             mono_output_bound (generate_sweep_fst_bound g) hamp
               (calculate_gate_zero_or_one _ _ _)⟩
  · intro ht
    simp only [SignalGenerator.next_sample, ht, StereoSample.mono]
    rw [show (SignalGenerator.generate_pink_noise rng g).2.config = g.config from rfl]
    exact ⟨mono_output_bound (generate_pink_noise_bound rng g hrng hwf) hamp
             (calculate_gate_zero_or_one _ _ _),
           mono_output_bound (generate_pink_noise_bound rng g hrng hwf) hamp
             (calculate_gate_zero_or_one _ _ _)⟩

/-- C1 witness: the freshly created generator (default config: Sine,
amplitude 0.5) produces a first sample within `[-1, 1]` under the all-zero
rng stream. -/
theorem C1_generated_sample_range_witness :
    |(SignalGenerator.next_sample rngZero (SignalGenerator.new 44100)).1.left| ≤ 1 := by
  have hwf : (SignalGenerator.new 44100).PinkWF := by
    constructor
    · intro i
      simp [SignalGenerator.new]
    · simp [SignalGenerator.new]
  have hamp : |(SignalGenerator.new 44100).config.amplitude| ≤ 1 := by
    rw [show (SignalGenerator.new 44100).config.amplitude = 0.5 from rfl,
      abs_of_nonneg (by norm_num : (0:ℝ) ≤ 0.5)]
    norm_num
  have h := C1_generated_sample_range rngZero (SignalGenerator.new 44100)
    (fun n => by simp [rngZero]) hwf hamp
  exact (h.1 (Or.inl rfl)).1

/-- C1 counterexample: the claim as stated fails for PinkNoise.  In the
explicit state `pinkLoudGen` (amplitude 1, well-formed pink rows all
holding the draw 0.9), one `next_sample` with draws of 0.9 produces the
left-channel value 153/50 = 3.06 > 1, outside `[-1, 1]`. -/
theorem C1_pink_noise_counterexample :
    pinkLoudGen.PinkWF ∧ |pinkLoudGen.config.amplitude| ≤ 1 ∧
    (SignalGenerator.next_sample rngNine pinkLoudGen).1.left = 153 / 50 ∧
    1 < (SignalGenerator.next_sample rngNine pinkLoudGen).1.left := by
  have hval : (SignalGenerator.next_sample rngNine pinkLoudGen).1.left = 153 / 50 := by
    simp only [SignalGenerator.next_sample, pinkLoudGen, pinkConfig,
      SignalGenerator.generate_pink_noise, calculate_gate, rngNine, StereoSample.mono]
    norm_num
  refine ⟨⟨?_, ?_⟩, ?_, hval, ?_⟩
  · intro i
    rw [show pinkLoudGen.pink_rows i = 9 / 10 from rfl,
      abs_of_nonneg (by norm_num : (0:ℝ) ≤ 9 / 10)]
    norm_num
  · rw [show pinkLoudGen.pink_running_sum = 72 / 5 from rfl]
    rw [show pinkLoudGen.pink_rows = fun _ : Fin 16 => (9:ℝ) / 10 from rfl]
    rw [Finset.sum_const]
    simp
    norm_num
  · rw [show pinkLoudGen.config.amplitude = 1 from rfl]
    norm_num
  · rw [hval]
    norm_num

/-- With the Pulse pattern and an even integer cycle length `2*m` samples,
the gate phase before the `n`-th call (counting from phase 0) is exactly
`n mod 2m`. -/
theorem gate_phase_pulse (config : SignalConfig) (sample_rate : ℝ) (m : ℕ)
    (hpat : config.gate_pattern = GatePattern.Pulse)
    (hm : 0 < m) (hcycle : sample_rate / config.gate_rate = ((2 * m : ℕ) : ℝ)) :
    ∀ n, gate_phase_at config sample_rate n = ((n % (2 * m) : ℕ) : ℝ) := by
  intro n
  induction n with
  | zero => simp [gate_phase_at]
  | succ n ih =>
    have h2m : 0 < 2 * m := by omega
    have hlt : n % (2 * m) < 2 * m := Nat.mod_lt _ h2m
    have hstep : (n + 1) % (2 * m) = (n % (2 * m) + 1) % (2 * m) := by
      conv_lhs => rw [Nat.add_mod]
      rw [Nat.mod_eq_of_lt (show 1 < 2 * m by omega)]
    simp only [gate_phase_at, calculate_gate, hpat, ih, hcycle]
    by_cases hw : n % (2 * m) = 2 * m - 1
    · have hcond : ((2 * m : ℕ) : ℝ) ≤ ((n % (2 * m) : ℕ) : ℝ) + 1 := by
        have : 2 * m ≤ n % (2 * m) + 1 := by omega
        exact_mod_cast this
      rw [if_pos hcond]
      have h0 : (n + 1) % (2 * m) = 0 := by
        rw [hstep, hw, Nat.sub_add_cancel (by omega : 1 ≤ 2 * m), Nat.mod_self]
      rw [h0, Nat.cast_zero]
    · have hlt2 : n % (2 * m) + 1 < 2 * m := by omega
      have hcond : ((n % (2 * m) : ℕ) : ℝ) + 1 < ((2 * m : ℕ) : ℝ) := by
        exact_mod_cast hlt2
      rw [if_neg (not_le.mpr hcond)]
      rw [hstep, Nat.mod_eq_of_lt hlt2]
      push_cast
      ring

/-- C7: with gate pattern Pulse, duty 0.5, and a cycle length
`sample_rate / R = 2m` samples, the gate is exactly 1 on the first half and
exactly 0 on the second half of every cycle — stated for every sample
index `n`, hence in particular for 5 and more consecutive cycles. -/
theorem C7_pulse_gate_first_half (config : SignalConfig) (sample_rate : ℝ) (m : ℕ)
    (hpat : config.gate_pattern = GatePattern.Pulse)
    (hduty : config.gate_duty = 0.5)
    (hm : 0 < m) (hcycle : sample_rate / config.gate_rate = ((2 * m : ℕ) : ℝ))
    (n : ℕ) :
    gate_at config sample_rate n = if n % (2 * m) < m then 1 else 0 := by
  have hphase := gate_phase_pulse config sample_rate m hpat hm hcycle n
  have h2m : 0 < 2 * m := by omega
  have hpos : (0 : ℝ) < ((2 * m : ℕ) : ℝ) := by exact_mod_cast h2m
  have hhalf : (0.5 : ℝ) * ((2 * m : ℕ) : ℝ) = ((m : ℕ) : ℝ) := by
    push_cast
    ring
  simp only [gate_at, calculate_gate, hpat, hphase, hcycle, hduty]
  simp only [div_lt_iff₀ hpos, hhalf, Nat.cast_lt]

/-- C7 witness: at sample rate 8 and pulse rate 2 (cycle length 4, m = 2),
the gate of the third sample (index 2, the second half of the first cycle)
is 0. -/
theorem C7_pulse_gate_first_half_witness :
    gate_at pulseConfig 8 2 = 0 := by
  have h := C7_pulse_gate_first_half pulseConfig 8 2 rfl rfl (by norm_num)
    (by rw [show pulseConfig.gate_rate = 2 from rfl]; norm_num) 2
  rw [h]
  norm_num
